import Mathlib

/-!
Verification model of the `tws_emulator` repository (files `tws_client.py`
and `tws_emulator.py`): a line-delimited message protocol between a bar
streaming/order-fill emulator server (`TWSEmulator`) and a callback-driven
client (`TWSClient`).

Conventions of the embedding:
* Byte streams are `List Char`; a read returned by `socket.recv` is one
  `List Char` chunk, an empty chunk models `recv` returning `''` (peer
  closed).
* The JSON encode/decode pair (`json.dumps` / `json.loads`) is an external
  library; it is modelled by a concrete codec `encodeMsg` / `decodeMsg`
  that keeps the properties the repository's logic depends on:
  an encoded message contains no newline, decoding is tolerant of
  surrounding whitespace (so `json.loads(frame + "\n")` succeeds), and
  decoding fails on a concatenation of two frames ("Extra data") and on a
  truncated frame.  Numeric fields use a unary token encoding, which is
  irrelevant to the framing logic under verification.
* Python numbers (prices, quantities, timestamps) are modelled as `Int`.
-/

/-- Whitespace characters as stripped by `str.strip()` / tolerated by
`json.loads` (the subset that can occur in this protocol). -/
def wsChar (c : Char) : Bool :=
  c = ' ' || c = '\n' || c = '\t' || c = '\r'

/-- A character allowed inside the body of an encoded frame: anything except
the frame braces and the newline delimiter. -/
def okBodyChar (c : Char) : Bool :=
  !(c = '{' || c = '}' || c = '\n')

/-- A well-formed token: nonempty, and free of the space separator, frame
braces and newlines. -/
def tokOK (t : List Char) : Bool :=
  !t.isEmpty && t.all (fun c => !(c = ' ' || c = '{' || c = '}' || c = '\n'))

/-- Unary wire encoding of an integer (sign marker then unary digits);
stands in for JSON number syntax. -/
def numTok (n : Int) : List Char :=
  if n < 0 then 'm' :: List.replicate (-n).toNat 'i'
  else 'p' :: List.replicate n.toNat 'i'

/-- Decode a unary integer token. -/
def parseNum : List Char → Option Int
  | 'p' :: r => if r.all (fun c => c = 'i') then some (r.length : Int) else none
  | 'm' :: r => if r.all (fun c => c = 'i') then some (-(r.length : Int)) else none
  | _ => none

theorem all_replicate_self (k : Nat) (c : Char) :
    (List.replicate k c).all (fun x => x = c) = true := by
  induction k with
  | zero => rfl
  | succ n ih => simp [List.replicate, List.all_cons, ih]

theorem parseNum_numTok (n : Int) : parseNum (numTok n) = some n := by
  by_cases h : n < 0
  · simp only [numTok, if_pos h, parseNum, all_replicate_self, if_true,
      List.length_replicate]
    congr 1
    omega
  · simp only [numTok, if_neg h, parseNum, all_replicate_self, if_true,
      List.length_replicate]
    congr 1
    omega

theorem replicate_i_bodySafe (k : Nat) :
    (List.replicate k 'i').all
      (fun c => !(c = ' ' || c = '{' || c = '}' || c = '\n')) = true := by
  rw [List.all_eq_true]
  intro c hc
  rw [List.mem_replicate] at hc
  obtain ⟨-, rfl⟩ := hc
  decide

theorem numTok_tokOK (n : Int) : tokOK (numTok n) = true := by
  by_cases h : n < 0
  · simp [numTok, if_pos h, tokOK, replicate_i_bodySafe]
  · simp [numTok, if_neg h, tokOK, replicate_i_bodySafe]

/-- Split a character list at every space (models tokenisation of a frame
body); always returns at least one (possibly empty) token. -/
def splitSp : List Char → List (List Char)
  | [] => [[]]
  | c :: cs =>
    if c = ' ' then [] :: splitSp cs
    else
      match splitSp cs with
      | [] => [[c]]
      | t :: ts => (c :: t) :: ts

/-- Join tokens with single spaces (inverse of `splitSp` on good tokens). -/
def joinSp : List (List Char) → List Char
  | [] => []
  | [t] => t
  | t :: ts => t ++ ' ' :: joinSp ts

theorem splitSp_ne_nil (s : List Char) : splitSp s ≠ [] := by
  induction s with
  | nil => simp [splitSp]
  | cons c cs ih =>
    simp only [splitSp]
    by_cases h : c = ' '
    · simp [h]
    · simp only [if_neg h]
      cases hs : splitSp cs with
      | nil => simp
      | cons t ts => simp

theorem splitSp_no_space (t : List Char) (h : t.all (fun c => !(c = ' ')) = true) :
    splitSp t = [t] := by
  induction t with
  | nil => rfl
  | cons c cs ih =>
    rw [List.all_cons, Bool.and_eq_true] at h
    have hc : ¬(c = ' ') := by simpa using h.1
    simp only [splitSp, if_neg hc, ih h.2]

theorem splitSp_sep (t r : List Char) (h : t.all (fun c => !(c = ' ')) = true) :
    splitSp (t ++ ' ' :: r) = t :: splitSp r := by
  induction t with
  | nil => simp [splitSp]
  | cons c cs ih =>
    rw [List.all_cons, Bool.and_eq_true] at h
    have hc : ¬(c = ' ') := by simpa using h.1
    simp only [List.cons_append, splitSp, if_neg hc, List.append_eq]
    rw [ih h.2]

theorem splitSp_joinSp (ts : List (List Char)) (hne : ts ≠ [])
    (h : ∀ t ∈ ts, t.all (fun c => !(c = ' ')) = true) :
    splitSp (joinSp ts) = ts := by
  induction ts with
  | nil => exact absurd rfl hne
  | cons t rest ih =>
    cases rest with
    | nil =>
      simp only [joinSp]
      exact splitSp_no_space t (h t (by simp))
    | cons u us =>
      have hstep : joinSp (t :: u :: us) = t ++ ' ' :: joinSp (u :: us) := rfl
      rw [hstep, splitSp_sep t _ (h t (by simp))]
      rw [ih (by simp) (fun x hx => h x (List.mem_cons_of_mem _ hx))]

theorem joinSp_all (ts : List (List Char)) (p : Char → Bool) (hsp : p ' ' = true)
    (h : ∀ t ∈ ts, t.all p = true) : (joinSp ts).all p = true := by
  induction ts with
  | nil => rfl
  | cons t rest ih =>
    cases rest with
    | nil =>
      simpa [joinSp] using h t (by simp)
    | cons u us =>
      have hstep : joinSp (t :: u :: us) = t ++ ' ' :: joinSp (u :: us) := rfl
      rw [hstep, List.all_append]
      have h1 := h t (by simp)
      have h2 := ih (fun x hx => h x (List.mem_cons_of_mem _ hx))
      simp [h1, h2, hsp]

/-- Order action as carried in a `placeOrder` request (`'BUY'` / `'SELL'`,
a closed set per the protocol). -/
inductive OrdAction
  | buy
  | sell
deriving DecidableEq, Repr

/-- The `order` object of a `placeOrder` message: `action` and `quantity`
fields (`order.totalQuantity` on the client side). -/
structure OrderReq where
  action : OrdAction
  quantity : Int
deriving DecidableEq, Repr

/-- The wire message vocabulary of the protocol, as read and written by
`tws_client.py` and `tws_emulator.py`.  `placeOrder none` models a
well-formed `placeOrder` message whose `order` field is missing;
`unknown t` models a well-formed message with an unrecognised `type`;
`noType` models a well-formed message with no `type` field at all.
String-valued fields (`status`, the unknown tag) are `List Char`. -/
inductive Msg
  | reqRealTimeBars (barSize : Int)
  | placeOrder (order : Option OrderReq)
  | disconnectMsg
  | barUpdate (time open_ high low close : Int)
  | orderStatus (orderId : Int) (status : List Char) (avgFillPrice : Int)
  | endOfData
  | unknown (tag : List Char)
  | noType
deriving DecidableEq, Repr

def tagReq : List Char := "reqRealTimeBars".toList
def tagPlace : List Char := "placeOrder".toList
def tagDisc : List Char := "disconnect".toList
def tagBar : List Char := "barUpdate".toList
def tagStatus : List Char := "orderStatus".toList
def tagEnd : List Char := "endOfData".toList

def knownTags : List (List Char) := [tagReq, tagPlace, tagDisc, tagBar, tagStatus, tagEnd]

def actTok : OrdAction → List Char
  | .buy => "BUY".toList
  | .sell => "SELL".toList

def parseAct (t : List Char) : Option OrdAction :=
  if t = actTok .buy then some .buy
  else if t = actTok .sell then some .sell
  else none

/-- The token sequence forming the body of an encoded message. -/
def msgTokens : Msg → List (List Char)
  | .reqRealTimeBars n => [['t'], tagReq, numTok n]
  | .placeOrder none => [['t'], tagPlace]
  | .placeOrder (some o) => [['t'], tagPlace, ['o'], actTok o.action, numTok o.quantity]
  | .disconnectMsg => [['t'], tagDisc]
  | .barUpdate t o h l c => [['t'], tagBar, numTok t, numTok o, numTok h, numTok l, numTok c]
  | .orderStatus i st p => [['t'], tagStatus, numTok i, st, numTok p]
  | .endOfData => [['t'], tagEnd]
  | .unknown u => [['t'], u]
  | .noType => [['n']]

/-- Encoding of one message (stands in for `json.dumps`): a brace-wrapped,
newline-free rendering. -/
def encodeMsg (m : Msg) : List Char :=
  '{' :: joinSp (msgTokens m) ++ ['}']

/-- `validMsgB m` holds when the string-valued fields of `m` are well-formed
tokens (mirrors what `json.dumps` would produce for the repository's
messages: in the repository the server only ever emits the status
`'Filled'`, and unknown tags are alphanumeric type names). -/
def validMsgB : Msg → Bool
  | .orderStatus _ st _ => tokOK st
  | .unknown u => tokOK u && !(knownTags.contains u)
  | _ => true

/-- Dispatch of a parsed body on its `type` tag. -/
def parseTyped (tag : List Char) (args : List (List Char)) : Option Msg :=
  if tag = tagReq then
    match args with
    | [a] => (parseNum a).map Msg.reqRealTimeBars
    | _ => none
  else if tag = tagPlace then
    match args with
    | [] => some (.placeOrder none)
    | [['o'], a, q] =>
      match parseAct a, parseNum q with
      | some ac, some qq => some (.placeOrder (some ⟨ac, qq⟩))
      | _, _ => none
    | _ => none
  else if tag = tagDisc then
    if args = [] then some .disconnectMsg else none
  else if tag = tagBar then
    match args with
    | [a, b, c, d, e] =>
      match parseNum a, parseNum b, parseNum c, parseNum d, parseNum e with
      | some t, some o, some h, some l, some cl => some (.barUpdate t o h l cl)
      | _, _, _, _, _ => none
    | _ => none
  else if tag = tagStatus then
    match args with
    | [a, st, p] =>
      match parseNum a, parseNum p with
      | some i, some pp => some (.orderStatus i st pp)
      | _, _ => none
    | _ => none
  else if tag = tagEnd then
    if args = [] then some .endOfData else none
  else if args = [] then some (.unknown tag)
  else none

/-- Parse a tokenised frame body into a message. -/
def parseBody (toks : List (List Char)) : Option Msg :=
  match toks with
  | [['n']] => some .noType
  | ['t'] :: tag :: args => parseTyped tag args
  | _ => none

/-- Strip leading and trailing whitespace (models the whitespace tolerance
of `json.loads` and `str.strip`). -/
def trimWs (s : List Char) : List Char :=
  ((s.dropWhile wsChar).reverse.dropWhile wsChar).reverse

/-- Decoding of one frame (stands in for `json.loads`): succeeds only on a
single complete brace-wrapped body, possibly surrounded by whitespace.  A
concatenation of two frames fails (Python raises "Extra data"), as does a
truncated frame. -/
def decodeMsg (s : List Char) : Option Msg :=
  match trimWs s with
  | '{' :: rest =>
    if rest.getLast? = some '}' then
      if rest.dropLast.all okBodyChar then parseBody (splitSp rest.dropLast) else none
    else none
  | _ => none

theorem tokOK_no_space (t : List Char) (h : tokOK t = true) :
    t.all (fun c => !(c = ' ')) = true := by
  rw [tokOK, Bool.and_eq_true, List.all_eq_true] at h
  rw [List.all_eq_true]
  intro c hc
  have := h.2 c hc
  simp only [Bool.not_eq_true', Bool.or_eq_false_iff] at this
  simp [this.1.1.1]

theorem tokOK_bodySafe (t : List Char) (h : tokOK t = true) :
    t.all okBodyChar = true := by
  rw [tokOK, Bool.and_eq_true, List.all_eq_true] at h
  rw [List.all_eq_true]
  intro c hc
  have := h.2 c hc
  simp only [Bool.not_eq_true', Bool.or_eq_false_iff] at this
  simp [okBodyChar, this.1.1.2, this.1.2, this.2]

theorem msgTokens_tokOK (m : Msg) (hv : validMsgB m = true) :
    ∀ t ∈ msgTokens m, tokOK t = true := by
  cases m with
  | reqRealTimeBars n =>
    intro t ht
    simp only [msgTokens, List.mem_cons, List.not_mem_nil, or_false] at ht
    rcases ht with rfl | rfl | rfl
    · decide
    · decide
    · exact numTok_tokOK n
  | placeOrder o =>
    cases o with
    | none =>
      intro t ht
      simp only [msgTokens, List.mem_cons, List.not_mem_nil, or_false] at ht
      rcases ht with rfl | rfl
      · decide
      · decide
    | some req =>
      intro t ht
      simp only [msgTokens, List.mem_cons, List.not_mem_nil, or_false] at ht
      rcases ht with rfl | rfl | rfl | rfl | rfl
      · decide
      · decide
      · decide
      · cases req.action <;> decide
      · exact numTok_tokOK _
  | disconnectMsg =>
    intro t ht
    simp only [msgTokens, List.mem_cons, List.not_mem_nil, or_false] at ht
    rcases ht with rfl | rfl
    · decide
    · decide
  | barUpdate a b c d e =>
    intro t ht
    simp only [msgTokens, List.mem_cons, List.not_mem_nil, or_false] at ht
    rcases ht with rfl | rfl | rfl | rfl | rfl | rfl | rfl
    · decide
    · decide
    · exact numTok_tokOK _
    · exact numTok_tokOK _
    · exact numTok_tokOK _
    · exact numTok_tokOK _
    · exact numTok_tokOK _
  | orderStatus i st p =>
    rw [validMsgB] at hv
    intro t ht
    simp only [msgTokens, List.mem_cons, List.not_mem_nil, or_false] at ht
    rcases ht with rfl | rfl | rfl | rfl | rfl
    · decide
    · decide
    · exact numTok_tokOK _
    · exact hv
    · exact numTok_tokOK _
  | endOfData =>
    intro t ht
    simp only [msgTokens, List.mem_cons, List.not_mem_nil, or_false] at ht
    rcases ht with rfl | rfl
    · decide
    · decide
  | unknown u =>
    rw [validMsgB, Bool.and_eq_true] at hv
    intro t ht
    simp only [msgTokens, List.mem_cons, List.not_mem_nil, or_false] at ht
    rcases ht with rfl | rfl
    · decide
    · exact hv.1
  | noType =>
    intro t ht
    simp only [msgTokens, List.mem_cons, List.not_mem_nil, or_false] at ht
    rcases ht with rfl
    · decide

theorem dropWhile_append_of_all (p : Char → Bool) (l r : List Char)
    (h : l.all p = true) : (l ++ r).dropWhile p = r.dropWhile p := by
  induction l with
  | nil => rfl
  | cons c cs ih =>
    rw [List.all_cons, Bool.and_eq_true] at h
    simp only [List.cons_append, List.dropWhile_cons, h.1, if_true]
    exact ih h.2

theorem trimWs_frame (mid tail : List Char) (htail : tail.all wsChar = true) :
    trimWs (('{' :: mid ++ ['}']) ++ tail) = '{' :: mid ++ ['}'] := by
  have hbr : wsChar '{' = false := by decide
  have hbr2 : wsChar '}' = false := by decide
  have h1 : (('{' :: mid ++ ['}']) ++ tail).dropWhile wsChar
      = '{' :: (mid ++ ['}'] ++ tail) := by
    simp [List.dropWhile_cons, hbr, List.append_assoc]
  have h2 : ('{' :: (mid ++ ['}'] ++ tail)).reverse
      = tail.reverse ++ ('}' :: (mid.reverse ++ ['{'])) := by
    simp [List.reverse_cons, List.reverse_append, List.append_assoc]
  rw [trimWs, h1, h2, dropWhile_append_of_all wsChar tail.reverse _
    (by rw [List.all_reverse]; exact htail)]
  rw [List.dropWhile_cons]
  simp [hbr2, List.reverse_append]

/-- Any message the codec can produce decodes back to itself, also when the
frame is followed by whitespace such as the newline delimiter (mirroring
`json.loads(s + "\n")`). -/
theorem decode_encode_tail (m : Msg) (hv : validMsgB m = true) (tail : List Char)
    (htail : tail.all wsChar = true) :
    decodeMsg (encodeMsg m ++ tail) = some m := by
  have hne : msgTokens m ≠ [] := by cases m with
    | placeOrder o => cases o <;> simp [msgTokens]
    | _ => simp [msgTokens]
  have htoks := msgTokens_tokOK m hv
  have hbody : (joinSp (msgTokens m)).all okBodyChar = true :=
    joinSp_all _ okBodyChar (by decide)
      (fun t ht => tokOK_bodySafe t (htoks t ht))
  have hsplit : splitSp (joinSp (msgTokens m)) = msgTokens m :=
    splitSp_joinSp _ hne (fun t ht => tokOK_no_space t (htoks t ht))
  have henc : encodeMsg m ++ tail = ('{' :: joinSp (msgTokens m) ++ ['}']) ++ tail := by
    simp [encodeMsg]
  rw [decodeMsg, henc, trimWs_frame _ _ htail]
  simp only [List.cons_append]
  rw [List.getLast?_concat, if_pos rfl, List.dropLast_concat, if_pos hbody, hsplit]
  cases m with
  | reqRealTimeBars n =>
    simp [msgTokens, parseBody, parseTyped, parseNum_numTok]
  | placeOrder o =>
    cases o with
    | none =>
      have hne2 : tagPlace ≠ tagReq := by decide
      simp [msgTokens, parseBody, parseTyped, hne2]
    | some req =>
      have hne2 : tagPlace ≠ tagReq := by decide
      obtain ⟨a, q⟩ := req
      cases a <;>
        simp [msgTokens, parseBody, parseTyped, hne2, parseAct, actTok, parseNum_numTok]
  | disconnectMsg =>
    simp [msgTokens, parseBody, parseTyped, show tagDisc ≠ tagReq by decide,
      show tagDisc ≠ tagPlace by decide]
  | barUpdate a b c d e =>
    simp [msgTokens, parseBody, parseTyped, show tagBar ≠ tagReq by decide,
      show tagBar ≠ tagPlace by decide, show tagBar ≠ tagDisc by decide, parseNum_numTok]
  | orderStatus i st p =>
    simp [msgTokens, parseBody, parseTyped, show tagStatus ≠ tagReq by decide,
      show tagStatus ≠ tagPlace by decide, show tagStatus ≠ tagDisc by decide,
      show tagStatus ≠ tagBar by decide, parseNum_numTok]
  | endOfData =>
    simp [msgTokens, parseBody, parseTyped, show tagEnd ≠ tagReq by decide,
      show tagEnd ≠ tagPlace by decide, show tagEnd ≠ tagDisc by decide,
      show tagEnd ≠ tagBar by decide, show tagEnd ≠ tagStatus by decide]
  | unknown u =>
    rw [validMsgB, Bool.and_eq_true] at hv
    have hu : u ∉ knownTags := by simpa using hv.2
    simp only [knownTags, List.mem_cons, List.mem_singleton, not_or] at hu
    obtain ⟨h1, h2, h3, h4, h5, h6, -⟩ := hu
    simp [msgTokens, parseBody, parseTyped, h1, h2, h3, h4, h5, h6]
  | noType =>
    simp [msgTokens, parseBody]

theorem decode_encode (m : Msg) (hv : validMsgB m = true) :
    decodeMsg (encodeMsg m) = some m := by
  have := decode_encode_tail m hv [] (by decide)
  simpa using this

theorem decode_encode_nl (m : Msg) (hv : validMsgB m = true) :
    decodeMsg (encodeMsg m ++ ['\n']) = some m :=
  decode_encode_tail m hv ['\n'] (by decide)

theorem encodeMsg_no_nl (m : Msg) (hv : validMsgB m = true) :
    '\n' ∉ encodeMsg m := by
  have htoks := msgTokens_tokOK m hv
  have hbody : (joinSp (msgTokens m)).all okBodyChar = true :=
    joinSp_all _ okBodyChar (by decide)
      (fun t ht => tokOK_bodySafe t (htoks t ht))
  intro hmem
  rw [encodeMsg] at hmem
  rcases List.mem_append.mp hmem with h | h
  · rcases List.mem_cons.mp h with h | h
    · exact absurd h (by decide)
    · rw [List.all_eq_true] at hbody
      have := hbody _ h
      simp [okBodyChar] at this
  · rw [List.mem_singleton] at h
    exact absurd h (by decide)

theorem encodeMsg_not_blank (m : Msg) : (encodeMsg m).all wsChar = false := by
  have h : wsChar '{' = false := by decide
  simp [encodeMsg, List.all_append, List.all_cons, h]

/-- Split off the first newline-terminated line of a buffer, if any
(models `buffer.split('\n', 1)` guarded by `'\n' in buffer`). -/
def takeLine : List Char → Option (List Char × List Char)
  | [] => none
  | c :: cs =>
    if c = '\n' then some ([], cs)
    else (takeLine cs).map (fun p => (c :: p.1, p.2))

theorem takeLine_none_iff (buf : List Char) :
    takeLine buf = none ↔ '\n' ∉ buf := by
  induction buf with
  | nil => simp [takeLine]
  | cons c cs ih =>
    by_cases hc : c = '\n'
    · subst hc
      simp [takeLine]
    · simp [takeLine, hc, ih, Ne.symm hc]

theorem takeLine_some_len (buf line rest : List Char)
    (h : takeLine buf = some (line, rest)) :
    buf.length = line.length + 1 + rest.length := by
  induction buf generalizing line rest with
  | nil => exact Option.noConfusion h
  | cons c cs ih =>
    by_cases hc : c = '\n'
    · subst hc
      rw [takeLine, if_pos rfl] at h
      simp only [Option.some_inj, Prod.mk.injEq] at h
      obtain ⟨rfl, rfl⟩ := h
      simp
      omega
    · rw [takeLine, if_neg hc] at h
      cases hcs : takeLine cs with
      | none => rw [hcs] at h; exact Option.noConfusion h
      | some p =>
        obtain ⟨l1, r1⟩ := p
        rw [hcs] at h
        simp only [Option.map_some', Option.some_inj, Prod.mk.injEq] at h
        obtain ⟨rfl, rfl⟩ := h
        have := ih l1 r1 hcs
        simp only [List.length_cons, this]
        omega

theorem takeLine_append_some (a b line rest : List Char)
    (h : takeLine a = some (line, rest)) :
    takeLine (a ++ b) = some (line, rest ++ b) := by
  induction a generalizing line rest with
  | nil => exact Option.noConfusion h
  | cons c cs ih =>
    by_cases hc : c = '\n'
    · subst hc
      rw [takeLine, if_pos rfl] at h
      simp only [Option.some_inj, Prod.mk.injEq] at h
      obtain ⟨rfl, rfl⟩ := h
      simp [takeLine]
    · rw [takeLine, if_neg hc] at h
      cases hcs : takeLine cs with
      | none => rw [hcs] at h; exact Option.noConfusion h
      | some p =>
        obtain ⟨l1, r1⟩ := p
        rw [hcs] at h
        simp only [Option.map_some', Option.some_inj, Prod.mk.injEq] at h
        obtain ⟨rfl, rfl⟩ := h
        have hr := ih l1 r1 hcs
        simp only [List.cons_append, takeLine, if_neg hc, List.append_eq, hr,
          Option.map_some']

theorem takeLine_of_line (l r : List Char) (hl : '\n' ∉ l) :
    takeLine (l ++ '\n' :: r) = some (l, r) := by
  induction l with
  | nil => simp [takeLine]
  | cons c cs ih =>
    have hc : ¬(c = '\n') := fun hx => hl (by simp [hx])
    have hcs : '\n' ∉ cs := fun hx => hl (by simp [hx])
    simp only [List.cons_append, takeLine, if_neg hc, List.append_eq, ih hcs]
    rfl

/-- `line.strip()` is falsy: the line is all whitespace. -/
def isBlankLine (l : List Char) : Bool := l.all wsChar

/-- How one pass of the client's inner `while '\n' in buffer` loop in
`TWSClient.listen` exits.

* `needMore`: no complete line left in the buffer; control returns to the
  blocking `recv`.
* `decodeFail`: `json.loads(line)` raised `JSONDecodeError`; the exception
  is caught by the outer `except json.JSONDecodeError` handler, which logs
  and lets the outer `while self.running` loop continue (the bad line has
  already been removed from the buffer).
* `endData`: an `endOfData` message was dispatched; the client calls
  `self.disconnect()` (clearing `self.running`) and breaks out of the
  inner loop, after which the outer loop condition fails.
* `fatalExit`: accessing `msg['type']` raised (`KeyError` on a message
  with no `type` field); the `except Exception` handler calls
  `self.disconnect()` and breaks out of the outer loop. -/
inductive IExit
  | needMore
  | decodeFail
  | endData
  | fatalExit
deriving DecidableEq, Repr

/-- Result of draining the buffer once inside `TWSClient.listen`:
the messages decoded (and dispatched) in order, the remaining buffer
content, and the exit condition. -/
structure InnerRes where
  msgs : List Msg
  buf : List Char
  exit : IExit
deriving DecidableEq, Repr

/-- Fueled form of the inner loop of `TWSClient.listen`
(`while '\n' in buffer: line, buffer = buffer.split('\n', 1); ...`);
the fuel only forces termination and is irrelevant once it is at least
the buffer length. -/
def innerLoopF : Nat → List Char → InnerRes
  | 0, buf => ⟨[], buf, .needMore⟩
  | fuel + 1, buf =>
    match takeLine buf with
    | none => ⟨[], buf, .needMore⟩
    | some (line, rest) =>
      if isBlankLine line then innerLoopF fuel rest
      else
        match decodeMsg line with
        | none => ⟨[], rest, .decodeFail⟩
        | some m =>
          match m with
          | .endOfData => ⟨[m], rest, .endData⟩
          | .noType => ⟨[m], rest, .fatalExit⟩
          | _ =>
            let r := innerLoopF fuel rest
            ⟨m :: r.msgs, r.buf, r.exit⟩

/-- One drain of the buffer in `TWSClient.listen`. -/
def innerLoop (buf : List Char) : InnerRes := innerLoopF buf.length buf

theorem innerLoopF_fuelInv (f1 : Nat) :
    ∀ (f2 : Nat) (buf : List Char), buf.length ≤ f1 → buf.length ≤ f2 →
      innerLoopF f1 buf = innerLoopF f2 buf := by
  induction f1 with
  | zero =>
    intro f2 buf h1 h2
    have hb : buf = [] := List.length_eq_zero.mp (Nat.le_zero.mp h1)
    subst hb
    cases f2 with
    | zero => rfl
    | succ g => simp [innerLoopF, takeLine]
  | succ g1 ih =>
    intro f2 buf h1 h2
    cases f2 with
    | zero =>
      have hb : buf = [] := List.length_eq_zero.mp (Nat.le_zero.mp h2)
      subst hb
      simp [innerLoopF, takeLine]
    | succ g2 =>
      simp only [innerLoopF]
      cases htl : takeLine buf with
      | none => rfl
      | some p =>
        obtain ⟨line, rest⟩ := p
        have hlen := takeLine_some_len buf line rest htl
        have hr1 : rest.length ≤ g1 := by omega
        have hr2 : rest.length ≤ g2 := by omega
        by_cases hb : isBlankLine line = true
        · simp only [hb, if_true]
          exact ih g2 rest hr1 hr2
        · simp only [hb, if_false, Bool.false_eq_true]
          cases decodeMsg line with
          | none => rfl
          | some m =>
            cases m with
            | endOfData => rfl
            | noType => rfl
            | reqRealTimeBars n => simp only [ih g2 rest hr1 hr2]
            | placeOrder o => simp only [ih g2 rest hr1 hr2]
            | disconnectMsg => simp only [ih g2 rest hr1 hr2]
            | barUpdate a b c d e => simp only [ih g2 rest hr1 hr2]
            | orderStatus i st p => simp only [ih g2 rest hr1 hr2]
            | unknown u => simp only [ih g2 rest hr1 hr2]

theorem innerLoopF_eq_innerLoop (f : Nat) (buf : List Char) (h : buf.length ≤ f) :
    innerLoopF f buf = innerLoop buf :=
  innerLoopF_fuelInv f buf.length buf h (Nat.le_refl _)

theorem innerLoop_none (buf : List Char) (h : takeLine buf = none) :
    innerLoop buf = ⟨[], buf, .needMore⟩ := by
  rw [innerLoop]
  cases hl : buf.length with
  | zero => rfl
  | succ g => simp [innerLoopF, h]

theorem innerLoop_blank (buf line rest : List Char)
    (h : takeLine buf = some (line, rest)) (hb : isBlankLine line = true) :
    innerLoop buf = innerLoop rest := by
  have hlen := takeLine_some_len buf line rest h
  have h1 : buf.length = (line.length + rest.length) + 1 := by omega
  rw [innerLoop, h1]
  simp only [innerLoopF, h, hb, if_true]
  exact innerLoopF_eq_innerLoop _ rest (by omega)

theorem innerLoop_fail (buf line rest : List Char)
    (h : takeLine buf = some (line, rest)) (hb : isBlankLine line = false)
    (hd : decodeMsg line = none) :
    innerLoop buf = ⟨[], rest, .decodeFail⟩ := by
  have hlen := takeLine_some_len buf line rest h
  have h1 : buf.length = (line.length + rest.length) + 1 := by omega
  rw [innerLoop, h1]
  simp [innerLoopF, h, hb, hd]

theorem innerLoop_endData (buf line rest : List Char)
    (h : takeLine buf = some (line, rest)) (hb : isBlankLine line = false)
    (hd : decodeMsg line = some .endOfData) :
    innerLoop buf = ⟨[.endOfData], rest, .endData⟩ := by
  have hlen := takeLine_some_len buf line rest h
  have h1 : buf.length = (line.length + rest.length) + 1 := by omega
  rw [innerLoop, h1]
  simp [innerLoopF, h, hb, hd]

theorem innerLoop_noType (buf line rest : List Char)
    (h : takeLine buf = some (line, rest)) (hb : isBlankLine line = false)
    (hd : decodeMsg line = some .noType) :
    innerLoop buf = ⟨[.noType], rest, .fatalExit⟩ := by
  have hlen := takeLine_some_len buf line rest h
  have h1 : buf.length = (line.length + rest.length) + 1 := by omega
  rw [innerLoop, h1]
  simp [innerLoopF, h, hb, hd]

/-- A decoded message other than `endOfData` / `noType` is dispatched
without interrupting the loop, whichever branch of the dispatch `elif`
chain (or none) it takes. -/
theorem innerLoop_cont (buf line rest : List Char) (m : Msg)
    (h : takeLine buf = some (line, rest)) (hb : isBlankLine line = false)
    (hd : decodeMsg line = some m) (hm1 : m ≠ .endOfData) (hm2 : m ≠ .noType) :
    innerLoop buf = ⟨m :: (innerLoop rest).msgs, (innerLoop rest).buf,
      (innerLoop rest).exit⟩ := by
  have hlen := takeLine_some_len buf line rest h
  have h1 : buf.length = (line.length + rest.length) + 1 := by omega
  rw [innerLoop, h1]
  simp only [innerLoopF, h, hb, if_false, Bool.false_eq_true, hd]
  have hrw := innerLoopF_eq_innerLoop (line.length + rest.length) rest (by omega)
  cases m with
  | endOfData => exact absurd rfl hm1
  | noType => exact absurd rfl hm2
  | reqRealTimeBars n => simp [hrw]
  | placeOrder o => simp [hrw]
  | disconnectMsg => simp [hrw]
  | barUpdate a b c d e => simp [hrw]
  | orderStatus i st p => simp [hrw]
  | unknown u => simp [hrw]

/-- Composition law of the buffer drain: processing `buf ++ extra` is
processing `buf` and then continuing from the leftover buffer, except that
an exit other than `needMore` freezes the leftover (the loop was exited
with `extra` still unread in the buffer). -/
theorem innerLoop_append_aux (f : Nat) :
    ∀ (buf extra : List Char), buf.length ≤ f →
      innerLoop (buf ++ extra) =
        if (innerLoop buf).exit = .needMore then
          ⟨(innerLoop buf).msgs ++ (innerLoop ((innerLoop buf).buf ++ extra)).msgs,
           (innerLoop ((innerLoop buf).buf ++ extra)).buf,
           (innerLoop ((innerLoop buf).buf ++ extra)).exit⟩
        else ⟨(innerLoop buf).msgs, (innerLoop buf).buf ++ extra, (innerLoop buf).exit⟩ := by
  induction f with
  | zero =>
    intro buf extra h
    have hb : buf = [] := List.length_eq_zero.mp (Nat.le_zero.mp h)
    subst hb
    rw [innerLoop_none [] rfl]
    simp
  | succ g ih =>
    intro buf extra h
    cases htl : takeLine buf with
    | none =>
      rw [innerLoop_none buf htl]
      simp
    | some p =>
      obtain ⟨line, rest⟩ := p
      have hlen := takeLine_some_len buf line rest htl
      have htl2 := takeLine_append_some buf extra line rest htl
      by_cases hbb : isBlankLine line = true
      · rw [innerLoop_blank buf line rest htl hbb,
          innerLoop_blank (buf ++ extra) line (rest ++ extra) htl2 hbb]
        exact ih rest extra (by omega)
      · have hb : isBlankLine line = false := by simpa using hbb
        cases hd : decodeMsg line with
        | none =>
          rw [innerLoop_fail buf line rest htl hb hd,
            innerLoop_fail (buf ++ extra) line (rest ++ extra) htl2 hb hd]
          simp
        | some m =>
          by_cases hm1 : m = .endOfData
          · subst hm1
            rw [innerLoop_endData buf line rest htl hb hd,
              innerLoop_endData (buf ++ extra) line (rest ++ extra) htl2 hb hd]
            simp
          · by_cases hm2 : m = .noType
            · subst hm2
              rw [innerLoop_noType buf line rest htl hb hd,
                innerLoop_noType (buf ++ extra) line (rest ++ extra) htl2 hb hd]
              simp
            · rw [innerLoop_cont buf line rest m htl hb hd hm1 hm2,
                innerLoop_cont (buf ++ extra) line (rest ++ extra) m htl2 hb hd hm1 hm2]
              rw [ih rest extra (by omega)]
              by_cases hx : (innerLoop rest).exit = .needMore
              · simp [hx]
              · simp [hx]

theorem innerLoop_append (buf extra : List Char) :
    innerLoop (buf ++ extra) =
      if (innerLoop buf).exit = .needMore then
        ⟨(innerLoop buf).msgs ++ (innerLoop ((innerLoop buf).buf ++ extra)).msgs,
         (innerLoop ((innerLoop buf).buf ++ extra)).buf,
         (innerLoop ((innerLoop buf).buf ++ extra)).exit⟩
      else ⟨(innerLoop buf).msgs, (innerLoop buf).buf ++ extra, (innerLoop buf).exit⟩ :=
  innerLoop_append_aux buf.length buf extra (Nat.le_refl _)

/-- When the drain stops for more input, the leftover buffer holds no
complete line. -/
theorem innerLoop_needMore_no_nl (f : Nat) :
    ∀ buf : List Char, buf.length ≤ f → (innerLoop buf).exit = .needMore →
      '\n' ∉ (innerLoop buf).buf := by
  induction f with
  | zero =>
    intro buf h _
    have hb : buf = [] := List.length_eq_zero.mp (Nat.le_zero.mp h)
    subst hb
    rw [innerLoop_none [] rfl]
    simp
  | succ g ih =>
    intro buf h hexit
    cases htl : takeLine buf with
    | none =>
      rw [innerLoop_none buf htl]
      exact (takeLine_none_iff buf).mp htl
    | some p =>
      obtain ⟨line, rest⟩ := p
      have hlen := takeLine_some_len buf line rest htl
      by_cases hbb : isBlankLine line = true
      · rw [innerLoop_blank buf line rest htl hbb] at hexit ⊢
        exact ih rest (by omega) hexit
      · have hb : isBlankLine line = false := by simpa using hbb
        cases hd : decodeMsg line with
        | none =>
          rw [innerLoop_fail buf line rest htl hb hd] at hexit
          exact absurd hexit (by simp)
        | some m =>
          by_cases hm1 : m = .endOfData
          · subst hm1
            rw [innerLoop_endData buf line rest htl hb hd] at hexit
            exact absurd hexit (by simp)
          · by_cases hm2 : m = .noType
            · subst hm2
              rw [innerLoop_noType buf line rest htl hb hd] at hexit
              exact absurd hexit (by simp)
            · rw [innerLoop_cont buf line rest m htl hb hd hm1 hm2] at hexit ⊢
              exact ih rest (by omega) hexit

/-- Why `TWSClient.listen` terminated: the peer closed the connection
(`recv` returned no data, so the client disconnects), an exception other
than `JSONDecodeError` led to disconnect-and-break, or an `endOfData`
message led to disconnect-and-break. -/
inductive StopCause
  | peerClosed
  | fatalErr
  | endDataStop
deriving DecidableEq, Repr

/-- Observable outcome of one life of the client's receive task: the
decoded (and dispatched) messages in order, and why the task stopped. -/
structure ClientRun where
  msgs : List Msg
  cause : StopCause
deriving DecidableEq, Repr

/-- The outer `while self.running` loop of `TWSClient.listen`, driven by the
successive chunks returned by `socket.recv`.  An empty chunk is `recv`
returning `''` (peer shutdown): the client disconnects and breaks.  While
frames remain buffered they are drained by `innerLoop`; `self.disconnect()`
inside the loop is modelled by its control effect (clearing `running`,
hence stopping). -/
def listenChunks : List (List Char) → List Char → ClientRun
  | [], _ => ⟨[], .peerClosed⟩
  | c :: cs, buf =>
    if c.isEmpty then ⟨[], .peerClosed⟩
    else
      let r := innerLoop (buf ++ c)
      match r.exit with
      | .needMore =>
        let k := listenChunks cs r.buf
        ⟨r.msgs ++ k.msgs, k.cause⟩
      | .decodeFail =>
        let k := listenChunks cs r.buf
        ⟨r.msgs ++ k.msgs, k.cause⟩
      | .endData => ⟨r.msgs, .endDataStop⟩
      | .fatalExit => ⟨r.msgs, .fatalErr⟩

/-- `TWSClient.listen`: the receive task, starting from an empty buffer with
`self.running` just set by `connect`. -/
def TWSClient.listen (chunks : List (List Char)) : ClientRun :=
  listenChunks chunks []

/-- Mapping from an inner-loop exit to the final stop cause when the rest of
the stream is empty. -/
def causeOf : IExit → StopCause
  | .needMore => .peerClosed
  | .decodeFail => .peerClosed
  | .endData => .endDataStop
  | .fatalExit => .fatalErr

/-- On a stream none of whose complete lines fails to decode, the receive
task behaves as if the whole stream arrived in a single read: the chunked
run decodes exactly the messages of the concatenated stream. -/
theorem listenChunks_join (chunks : List (List Char)) :
    ∀ buf : List Char, '\n' ∉ buf → (∀ c ∈ chunks, c ≠ []) →
      (innerLoop (buf ++ chunks.flatten)).exit ≠ .decodeFail →
      listenChunks chunks buf =
        ⟨(innerLoop (buf ++ chunks.flatten)).msgs,
         causeOf (innerLoop (buf ++ chunks.flatten)).exit⟩ := by
  induction chunks with
  | nil =>
    intro buf hnl _ _
    have htl : takeLine buf = none := (takeLine_none_iff buf).mpr hnl
    rw [listenChunks]
    simp [List.flatten, innerLoop_none buf htl, causeOf]
  | cons c cs ih =>
    intro buf hnl hne hdf
    have hc : ¬c.isEmpty := by
      have := hne c (by simp)
      simpa [List.isEmpty_iff] using this
    have hflat : buf ++ (c :: cs).flatten = (buf ++ c) ++ cs.flatten := by
      simp [List.flatten_cons, List.append_assoc]
    rw [hflat] at hdf ⊢
    have happ := innerLoop_append (buf ++ c) cs.flatten
    rw [listenChunks]
    simp only [hc, if_false, Bool.false_eq_true]
    cases hexit : (innerLoop (buf ++ c)).exit with
    | needMore =>
      rw [hexit] at happ
      rw [if_pos rfl] at happ
      have hnl2 : '\n' ∉ (innerLoop (buf ++ c)).buf :=
        innerLoop_needMore_no_nl (buf ++ c).length _ (Nat.le_refl _) hexit
      have hdf2 : (innerLoop ((innerLoop (buf ++ c)).buf ++ cs.flatten)).exit
          ≠ .decodeFail := by
        rw [happ] at hdf
        exact hdf
      have hrec := ih (innerLoop (buf ++ c)).buf hnl2
        (fun x hx => hne x (by simp [hx])) hdf2
      rw [happ, hrec]
    | decodeFail =>
      exfalso
      rw [hexit] at happ
      rw [if_neg (by decide)] at happ
      rw [happ] at hdf
      exact hdf rfl
    | endData =>
      rw [hexit] at happ
      rw [if_neg (by decide)] at happ
      rw [happ]
      simp [causeOf]
    | fatalExit =>
      rw [hexit] at happ
      rw [if_neg (by decide)] at happ
      rw [happ]
      simp [causeOf]

/-- One observable callback-level event on the client: the bar callback
fired (`self.bar_callback(bar, True)`), the order-status callback fired
(`self.order_status_callback(trade)`), or the `endOfData` branch was taken
(logged and followed by disconnect). -/
inductive CEvent
  | barCb (time open_ high low close : Int)
  | ordCb (orderId : Int) (status : List Char) (avgFillPrice : Int)
  | endSeen
deriving DecidableEq, Repr

/-- The dispatch `elif` chain of `TWSClient.listen` for one decoded message,
given whether a bar callback and an order-status callback are registered.
Messages whose type matches no branch produce no event. -/
def dispatchOf (barCb ordCb : Bool) : Msg → Option CEvent
  | .barUpdate t o h l c => if barCb then some (.barCb t o h l c) else none
  | .orderStatus i st p => if ordCb then some (.ordCb i st p) else none
  | .endOfData => some .endSeen
  | _ => none

/-- The callback trace of one client run: every decoded message is pushed
through the dispatch chain in decode order. -/
def clientTrace (barCb ordCb : Bool) (chunks : List (List Char)) : List CEvent :=
  ((TWSClient.listen chunks).msgs).filterMap (dispatchOf barCb ordCb)

/-- One wire frame: an encoded message plus the newline delimiter
(`(json.dumps(msg) + '\n').encode('utf-8')`). -/
def frameOf (m : Msg) : List Char := encodeMsg m ++ ['\n']

/-- The byte stream produced by writing a sequence of messages. -/
def byteStreamOf (msgs : List Msg) : List Char := (msgs.map frameOf).flatten

theorem innerLoop_frame_cont (m : Msg) (hv : validMsgB m = true)
    (hm1 : m ≠ .endOfData) (hm2 : m ≠ .noType) (rest : List Char) :
    innerLoop (frameOf m ++ rest) =
      ⟨m :: (innerLoop rest).msgs, (innerLoop rest).buf, (innerLoop rest).exit⟩ := by
  have hsh : frameOf m ++ rest = encodeMsg m ++ '\n' :: rest := by
    simp [frameOf, List.append_assoc]
  have htl : takeLine (encodeMsg m ++ '\n' :: rest) = some (encodeMsg m, rest) :=
    takeLine_of_line _ _ (encodeMsg_no_nl m hv)
  rw [hsh]
  exact innerLoop_cont _ _ _ m htl (encodeMsg_not_blank m) (decode_encode m hv) hm1 hm2

theorem innerLoop_frame_end (rest : List Char) :
    innerLoop (frameOf .endOfData ++ rest) = ⟨[.endOfData], rest, .endData⟩ := by
  have hv : validMsgB Msg.endOfData = true := rfl
  have hsh : frameOf .endOfData ++ rest = encodeMsg .endOfData ++ '\n' :: rest := by
    simp [frameOf, List.append_assoc]
  have htl : takeLine (encodeMsg .endOfData ++ '\n' :: rest)
      = some (encodeMsg .endOfData, rest) :=
    takeLine_of_line _ _ (encodeMsg_no_nl _ hv)
  rw [hsh]
  exact innerLoop_endData _ _ _ htl (encodeMsg_not_blank _) (decode_encode _ hv)

/-- A bar of the server's data frame: timestamp and OHLC values (one row of
`data_df` after aggregation). -/
structure Bar where
  time : Int
  open_ : Int
  high : Int
  low : Int
  close : Int
deriving DecidableEq, Repr

/-- The `barUpdate` message `TWSEmulator.stream_bars` builds from one row. -/
def barMsg (b : Bar) : Msg := .barUpdate b.time b.open_ b.high b.low b.close

theorem innerLoop_barStream (bars : List Bar) :
    innerLoop (byteStreamOf (bars.map barMsg ++ [Msg.endOfData])) =
      ⟨bars.map barMsg ++ [Msg.endOfData], [], .endData⟩ := by
  induction bars with
  | nil =>
    have h : byteStreamOf [Msg.endOfData] = frameOf .endOfData ++ [] := by
      simp [byteStreamOf]
    simpa [h] using innerLoop_frame_end []
  | cons b bs ih =>
    have h : byteStreamOf ((b :: bs).map barMsg ++ [Msg.endOfData])
        = frameOf (barMsg b) ++ byteStreamOf (bs.map barMsg ++ [Msg.endOfData]) := by
      simp [byteStreamOf]
    rw [h, innerLoop_frame_cont (barMsg b) rfl (by simp [barMsg]) (by simp [barMsg]) _,
      ih]
    simp

/-- A stored order record (`self.orders[self.order_id] = {...}`). -/
structure OrderRec where
  action : OrdAction
  quantity : Int
  fill_price : Int
deriving DecidableEq, Repr

/-- The server state of `TWSEmulator` relevant to message handling:
the `close` column of the loaded data, the order-id counter, the order
record map (a dict with increasing integer keys, modelled as an
association list in insertion order), and the running flag. -/
structure SrvState where
  data_close : List Int
  order_id : Nat
  orders : List (Nat × OrderRec)
  running : Bool
deriving DecidableEq, Repr

/-- `TWSEmulator.__init__`: no orders, counter at 0, not running. -/
def TWSEmulator.init (closes : List Int) : SrvState :=
  ⟨closes, 0, [], false⟩

/-- `TWSEmulator.start_server`: sets the running flag (the socket setup is
outside the model). -/
def TWSEmulator.start_server (st : SrvState) : SrvState :=
  { st with running := true }

/-- `TWSEmulator.stop`: clears the running flag (closing the listening and
client sockets is outside the model). -/
def TWSEmulator.stop (st : SrvState) : SrvState :=
  { st with running := false }

/-- `TWSEmulator.handle_order` on a `placeOrder` message that does carry an
`order` object: increment the id counter, look up the fill price
`self.data_df['close'].iloc[min(self.order_id, len(self.data_df)-1)]`,
record the order, and produce the `orderStatus` reply.  (For the loaded
data `len(self.data_df) ≥ 1`; the `List.getD` default is never taken
then.) -/
def TWSEmulator.handle_order (st : SrvState) (ord : OrderReq) : SrvState × Msg :=
  let oid := st.order_id + 1
  let fillIdx := min oid (st.data_close.length - 1)
  let fill := st.data_close.getD fillIdx 0
  ({ st with
      order_id := oid,
      orders := st.orders ++ [(oid, ⟨ord.action, ord.quantity, fill⟩)] },
   Msg.orderStatus (oid : Int) "Filled".toList fill)

/-- What the per-connection handler does after processing one read:
continue its read loop, continue after spawning a streaming thread, exit
because a `disconnect` message closed the connection, or exit because an
uncaught exception (e.g. `AttributeError` on `order.get` when the `order`
field is missing) hit the `except` in `handle_client` and broke the loop. -/
inductive HAct
  | keepGoing
  | startedStream
  | closedConn
  | crashed
deriving DecidableEq, Repr

/-- `TWSEmulator.process_message`: the server decodes one whole `recv` chunk
with `json.loads` (no framing buffer), then dispatches on `msg.get('type')`.
Returns the new state, the messages decoded from this chunk (none or one),
the replies written, and the control outcome.  A chunk that fails to decode
is logged and dropped (`except json.JSONDecodeError`).  A well-formed
message with an unknown or missing type matches no branch and is ignored.
A `placeOrder` without an `order` field raises inside `handle_order` after
the counter increment; only `JSONDecodeError` is caught here, so the
exception propagates and crashes the handler loop. -/
def TWSEmulator.process_message (st : SrvState) (chunk : List Char) :
    SrvState × List Msg × List Msg × HAct :=
  match decodeMsg chunk with
  | none => (st, [], [], .keepGoing)
  | some m =>
    match m with
    | .reqRealTimeBars _ => (st, [m], [], .startedStream)
    | .placeOrder (some o) =>
      let res := TWSEmulator.handle_order st o
      (res.1, [m], [res.2], .keepGoing)
    | .placeOrder none =>
      ({ st with order_id := st.order_id + 1 }, [m], [], .crashed)
    | .disconnectMsg => (st, [m], [], .closedConn)
    | _ => (st, [m], [], .keepGoing)

/-- `TWSEmulator.handle_client`: the per-connection read loop, fed the
chunks successively returned by `recv`.  An empty chunk (`recv` returned
`''`) closes the connection and exits; a `disconnect` message or an
uncaught exception also exits.  Returns the final state, the decoded
message sequence, and the replies written. -/
def TWSEmulator.handle_client (st : SrvState) :
    List (List Char) → SrvState × List Msg × List Msg
  | [] => (st, [], [])
  | c :: cs =>
    if st.running then
      if c.isEmpty then (st, [], [])
      else
        match TWSEmulator.process_message st c with
        | (st2, dec, reps, act) =>
          match act with
          | .keepGoing =>
            let res := TWSEmulator.handle_client st2 cs
            (res.1, dec ++ res.2.1, reps ++ res.2.2)
          | .startedStream =>
            let res := TWSEmulator.handle_client st2 cs
            (res.1, dec ++ res.2.1, reps ++ res.2.2)
          | .closedConn => (st2, dec, reps)
          | .crashed => (st2, dec, reps)
    else (st, [], [])

/-- The `for idx, row in df.iterrows()` loop of `TWSEmulator.stream_bars`:
`run i` is the value of `self.running` read at the top of iteration `i`
(the flag can be cleared concurrently by `TWSEmulator.stop`). -/
def streamLoop (run : Nat → Bool) : Nat → List Bar → List Msg
  | _, [] => []
  | i, b :: bs => if run i then barMsg b :: streamLoop run (i + 1) bs else []

/-- `TWSEmulator.stream_bars`: stream the bar rows in order while the
running flag holds, then write the `endOfData` message (the final
`send_message` is unconditional in the source). -/
def TWSEmulator.stream_bars (run : Nat → Bool) (bars : List Bar) : List Msg :=
  streamLoop run 0 bars ++ [Msg.endOfData]

/-- Sequential processing of a list of well-formed order requests by
`TWSEmulator.handle_order` (the successive `placeOrder` dispatches on a
server instance). -/
def TWSEmulator.handle_orders (st : SrvState) :
    List OrderReq → SrvState × List Msg
  | [] => (st, [])
  | o :: os =>
    let r1 := TWSEmulator.handle_order st o
    let rs := TWSEmulator.handle_orders r1.1 os
    (rs.1, r1.2 :: rs.2)

/-- The `orderId` field of an `orderStatus` reply. -/
def statusOrderId : Msg → Option Int
  | .orderStatus i _ _ => some i
  | _ => none

theorem handle_orders_ids (reqs : List OrderReq) :
    ∀ st : SrvState,
      ((TWSEmulator.handle_orders st reqs).2).filterMap statusOrderId
        = (List.range' (st.order_id + 1) reqs.length).map (fun k => (k : Int)) := by
  induction reqs with
  | nil => intro st; simp [TWSEmulator.handle_orders]
  | cons o os ih =>
    intro st
    simp only [TWSEmulator.handle_orders, List.length_cons, List.range'_succ,
      List.map_cons, List.filterMap_cons]
    rw [TWSEmulator.handle_order]
    simp only [statusOrderId]
    rw [ih]
    simp

theorem streamLoop_take (k : Nat) (bars : List Bar) :
    ∀ i : Nat, streamLoop (fun j => decide (j < k)) i bars
      = (bars.take (k - i)).map barMsg := by
  induction bars with
  | nil => intro i; simp [streamLoop]
  | cons b bs ih =>
    intro i
    by_cases h : i < k
    · have hk : k - i = (k - (i + 1)) + 1 := by omega
      simp [streamLoop, h, hk, ih (i + 1)]
    · have hk : k - i = 0 := by omega
      simp [streamLoop, h, hk]

/-- The mutable state of a `TWSClient` instance: the `connected` and
`running` flags, the `stop_event`, whether the socket object is open,
whether the two callbacks are registered, and whether `self.lock` (a
non-reentrant `threading.Lock`) is currently held by the executing
thread. -/
structure CState where
  connected : Bool
  running : Bool
  stopEventSet : Bool
  socketOpen : Bool
  barCbSet : Bool
  ordCbSet : Bool
  lockHeld : Bool
deriving DecidableEq, Repr

/-- Observable side effects of `TWSClient.disconnect`. -/
inductive DiscEffect
  | sentNotice
  | noticeFailed
  | closedSocket
  | reportedAlreadyDisconnected
deriving DecidableEq, Repr

/-- `TWSClient.disconnect`: acquire `self.lock` (returns `none` — the
caller blocks forever — if this thread already holds the non-reentrant
lock); while connected, best-effort send the disconnect notice
(`noticeOk` says whether that socket write succeeds; a failure is caught
and logged), close the socket, clear `connected` and `running`, and set
`stop_event`; otherwise just report "Already disconnected". -/
def TWSClient.disconnect (s : CState) (noticeOk : Bool) :
    Option (CState × List DiscEffect) :=
  if s.lockHeld then none
  else
    let sL : CState := { s with lockHeld := true }
    if sL.connected then
      let es := if noticeOk then [DiscEffect.sentNotice] else [DiscEffect.noticeFailed]
      some ({ sL with socketOpen := false, connected := false, running := false,
                      stopEventSet := true, lockHeld := false },
        es ++ [DiscEffect.closedSocket])
    else
      some ({ sL with lockHeld := false }, [DiscEffect.reportedAlreadyDisconnected])

/-- Outcome of `TWSClient.send`: the call returned (with the frames it
wrote), or the calling thread blocked forever on a lock acquisition. -/
inductive SendRes
  | done (s : CState) (wire : List (List Char))
  | deadlocked
deriving DecidableEq, Repr

/-- `TWSClient.send`: serialize under `self.lock`; while connected, write
the frame (`writeOk` says whether `socket.send` succeeds); on a write
failure the `except` branch calls `self.disconnect()` with `self.lock`
still held — `disconnect` then tries to acquire the same non-reentrant
lock.  (The disconnect-notice flag passed there is irrelevant: the socket
write just failed, and the call never gets past the lock.) -/
def TWSClient.send (s : CState) (m : Msg) (writeOk : Bool) : SendRes :=
  if s.lockHeld then .deadlocked
  else
    let sL : CState := { s with lockHeld := true }
    if sL.connected then
      if writeOk then .done { sL with lockHeld := false } [frameOf m]
      else
        match TWSClient.disconnect sL false with
        | none => .deadlocked
        | some (s2, _) => .done { s2 with lockHeld := false } []
    else .done { sL with lockHeld := false } []

/-- `TWSClient.place_order`: build the order-request frame, send it, then
synthesize the immediate local `Trade` object (`status='Filled'`,
`avgFillPrice=0.0` placeholder) and deliver it to the order-status
callback if one is registered; finally return the locally generated
identifier (`id(order)`, modelled by `localId`).  No server input is
consumed anywhere: the call does not wait for the server's reply. -/
def TWSClient.place_order (s : CState) (ord : OrderReq) (localId : Int)
    (writeOk : Bool) : Option (CState × List (List Char) × List CEvent × Int) :=
  let msg := Msg.placeOrder (some ord)
  match TWSClient.send s msg writeOk with
  | .deadlocked => none
  | .done s2 wire =>
    let evs := if s2.ordCbSet then [CEvent.ordCb localId "Filled".toList 0] else []
    some (s2, wire, evs, localId)

theorem streamLoop_all (bars : List Bar) :
    ∀ i : Nat, streamLoop (fun _ => true) i bars = bars.map barMsg := by
  induction bars with
  | nil => intro i; rfl
  | cons b bs ih => intro i; simp [streamLoop, ih (i + 1)]

theorem filterMap_barMsgs (o : Bool) (bars : List Bar) :
    (bars.map barMsg).filterMap (dispatchOf true o)
      = bars.map (fun b => CEvent.barCb b.time b.open_ b.high b.low b.close) := by
  induction bars with
  | nil => rfl
  | cons b bs ih => simp [barMsg, dispatchOf, ih]

theorem byteStream_end_ne_empty (bars : List Bar) :
    (byteStreamOf (bars.map barMsg ++ [Msg.endOfData])).isEmpty = false := by
  cases bars with
  | nil => rfl
  | cons b bs => simp [byteStreamOf, frameOf, encodeMsg]

/-- C1 (amended part): the CLIENT receive task (`TWSClient.listen`) buffers
bytes and decodes only complete newline-terminated frames, so on a stream
whose complete frames all decode, the decoded message sequence (and the
stop cause) is the same no matter how the stream is split across reads,
including mid-frame splits.  (The server's per-connection handler has no
such buffering; see the counterexample.) -/
theorem claim_C1_client_split_invariance (cs1 cs2 : List (List Char))
    (hjoin : cs1.flatten = cs2.flatten)
    (hne1 : ∀ c ∈ cs1, c ≠ []) (hne2 : ∀ c ∈ cs2, c ≠ [])
    (hok : (innerLoop cs1.flatten).exit ≠ .decodeFail) :
    TWSClient.listen cs1 = TWSClient.listen cs2 := by
  have h1 := listenChunks_join cs1 [] (by simp) hne1 (by simpa using hok)
  have h2 := listenChunks_join cs2 [] (by simp) hne2
    (by rw [← hjoin] at *; simpa using hok)
  rw [TWSClient.listen, TWSClient.listen, h1, h2]
  simp [hjoin]

/-- C1 witness: a whole `endOfData` frame versus the same bytes split
mid-frame give the same client run. -/
theorem claim_C1_client_split_invariance_witness :
    [frameOf Msg.endOfData].flatten
        = [(frameOf Msg.endOfData).take 5, (frameOf Msg.endOfData).drop 5].flatten
      ∧ TWSClient.listen [frameOf Msg.endOfData]
        = TWSClient.listen
            [(frameOf Msg.endOfData).take 5, (frameOf Msg.endOfData).drop 5] :=
  ⟨by decide,
   claim_C1_client_split_invariance _ _ (by decide) (by decide) (by decide) (by decide)⟩

/-- C1 counterexample: the SERVER's per-connection handler
(`TWSEmulator.handle_client` / `process_message`) decodes each `recv`
chunk as one whole JSON document.  The same byte stream — two complete
`disconnect` frames — decodes to zero messages when the two frames arrive
in one read (`json.loads` fails with extra data and the read is dropped),
but to one dispatched message when they arrive as separate reads.  This
refutes the claim that the server handler buffers and decodes every
complete frame in a read. -/
theorem claim_C1_server_no_buffering_counterexample :
    (frameOf Msg.disconnectMsg ++ frameOf Msg.disconnectMsg
        = [frameOf Msg.disconnectMsg, frameOf Msg.disconnectMsg].flatten)
    ∧ (TWSEmulator.handle_client
          (TWSEmulator.start_server (TWSEmulator.init [10]))
          [frameOf Msg.disconnectMsg ++ frameOf Msg.disconnectMsg]).2.1 = []
    ∧ (TWSEmulator.handle_client
          (TWSEmulator.start_server (TWSEmulator.init [10]))
          [frameOf Msg.disconnectMsg, frameOf Msg.disconnectMsg]).2.1
        = [Msg.disconnectMsg] :=
  ⟨by decide, by decide, by decide⟩

/-- C2: for every bar sequence of length `N` streamed by
`TWSEmulator.stream_bars` (running flag held) to a client whose bar
callback is registered, the client's callback trace is exactly the `N`
bar events in source order followed by exactly one `endOfData`
observation. -/
theorem claim_C2_bar_stream_callback_trace (bars : List Bar) (ordCb : Bool) :
    clientTrace true ordCb
        [byteStreamOf (TWSEmulator.stream_bars (fun _ => true) bars)]
      = bars.map (fun b => CEvent.barCb b.time b.open_ b.high b.low b.close)
          ++ [CEvent.endSeen] := by
  have hmsgs : TWSEmulator.stream_bars (fun _ => true) bars
      = bars.map barMsg ++ [Msg.endOfData] := by
    rw [TWSEmulator.stream_bars, streamLoop_all]
  have hne := byteStream_end_ne_empty bars
  have hs := innerLoop_barStream bars
  rw [clientTrace, TWSClient.listen, hmsgs, listenChunks]
  simp only [hne, Bool.false_eq_true, if_false, List.nil_append, hs]
  simp only [List.filterMap_append, filterMap_barMsgs]
  rfl

/-- C3: every order reply from `TWSEmulator.handle_order` is an
`orderStatus` with status `'Filled'` whose `avgFillPrice` is the close
value at index `min(order count, len-1)` — the current order count
clamped to the valid range — and that index never exceeds the last valid
index of the bar sequence. -/
theorem claim_C3_fill_price_clamped (st : SrvState) (ord : OrderReq)
    (hlen : 1 ≤ st.data_close.length) :
    ∃ h : min (st.order_id + 1) (st.data_close.length - 1) < st.data_close.length,
      (TWSEmulator.handle_order st ord).2
        = Msg.orderStatus ((st.order_id + 1 : Nat) : Int) "Filled".toList
            (st.data_close.get
              ⟨min (st.order_id + 1) (st.data_close.length - 1), h⟩)
      ∧ min (st.order_id + 1) (st.data_close.length - 1)
          ≤ st.data_close.length - 1 := by
  have h : min (st.order_id + 1) (st.data_close.length - 1)
      < st.data_close.length := by omega
  refine ⟨h, ?_, Nat.min_le_right _ _⟩
  rw [TWSEmulator.handle_order]
  simp only [List.get_eq_getElem]
  rw [List.getD_eq_getElem st.data_close 0 h]

/-- C3 witness: with closes `[10, 20, 30]` and no prior orders, the first
order is filled at the close at index `min(1, 2) = 1`, i.e. `20`. -/
theorem claim_C3_witness :
    1 ≤ (TWSEmulator.init [10, 20, 30]).data_close.length ∧
    (TWSEmulator.handle_order (TWSEmulator.init [10, 20, 30]) ⟨.buy, 10⟩).2
      = Msg.orderStatus 1 "Filled".toList 20 := by
  refine ⟨by decide, ?_⟩
  obtain ⟨h, heq, hle⟩ :=
    claim_C3_fill_price_clamped (TWSEmulator.init [10, 20, 30]) ⟨.buy, 10⟩
      (by decide)
  rw [heq]
  rfl

/-- C4: on a single server instance (fresh counter), the order identifiers
carried by the successive `orderStatus` replies are exactly
`[1, 2, ..., N]`: strictly increasing from 1, with the k-th processed
order receiving identifier k. -/
theorem claim_C4_order_ids_sequential (closes : List Int) (reqs : List OrderReq) :
    ((TWSEmulator.handle_orders
          (TWSEmulator.start_server (TWSEmulator.init closes)) reqs).2).filterMap
        statusOrderId
      = (List.range' 1 reqs.length).map (fun k => (k : Int)) := by
  have h := handle_orders_ids reqs (TWSEmulator.start_server (TWSEmulator.init closes))
  simpa [TWSEmulator.start_server, TWSEmulator.init] using h

/-- C5 counterexample: a well-formed message with no `type` field is not
ignored by the client: `msg['type']` raises `KeyError`, the generic
`except` handler disconnects and breaks the receive loop, so the
subsequent complete `endOfData` frame in the same stream is never
processed. -/
theorem claim_C5_missing_field_counterexample :
    TWSClient.listen [frameOf Msg.noType ++ frameOf Msg.endOfData]
      = ⟨[Msg.noType], .fatalErr⟩ := by decide

/-- C5 (amended): both sides ignore a well-formed message with an unknown
`type` (type field present): the client decodes it, fires no callback and
keeps processing; the server replies nothing, keeps its state and keeps
its read loop.  But missing required fields are fatal, not ignored: a
message with no `type` field makes the client disconnect and stop, and a
`placeOrder` with no `order` field raises inside the server's
`handle_order` (after the counter increment) and kills that handler. -/
theorem claim_C5_unknown_type_ignored (u : List Char) (rest : List Char)
    (st : SrvState) (b o : Bool)
    (hu1 : tokOK u = true) (hu2 : knownTags.contains u = false) :
    innerLoop (frameOf (.unknown u) ++ rest)
        = ⟨.unknown u :: (innerLoop rest).msgs, (innerLoop rest).buf,
            (innerLoop rest).exit⟩
      ∧ dispatchOf b o (.unknown u) = none
      ∧ TWSEmulator.process_message st (frameOf (.unknown u))
          = (st, [.unknown u], [], .keepGoing)
      ∧ innerLoop (frameOf .noType ++ rest) = ⟨[.noType], rest, .fatalExit⟩
      ∧ TWSEmulator.process_message st (frameOf (.placeOrder none))
          = ({ st with order_id := st.order_id + 1 }, [.placeOrder none], [],
              .crashed) := by
  have hv : validMsgB (.unknown u) = true := by
    have hmem : u ∉ knownTags := by simpa using hu2
    simp [validMsgB, hu1, hmem]
  refine ⟨?_, rfl, ?_, ?_, ?_⟩
  · exact innerLoop_frame_cont _ hv (by simp) (by simp) rest
  · rw [TWSEmulator.process_message,
      show frameOf (Msg.unknown u) = encodeMsg (Msg.unknown u) ++ ['\n'] from rfl,
      decode_encode_nl _ hv]
  · have hvn : validMsgB Msg.noType = true := rfl
    have hsh : frameOf .noType ++ rest = encodeMsg .noType ++ '\n' :: rest := by
      simp [frameOf, List.append_assoc]
    rw [hsh]
    exact innerLoop_noType _ _ _ (takeLine_of_line _ _ (encodeMsg_no_nl _ hvn))
      (encodeMsg_not_blank _) (decode_encode _ hvn)
  · have hvp : validMsgB (Msg.placeOrder none) = true := rfl
    rw [TWSEmulator.process_message,
      show frameOf (Msg.placeOrder none) = encodeMsg (Msg.placeOrder none) ++ ['\n']
        from rfl,
      decode_encode_nl _ hvp]

/-- C5 witness: the unknown tag `bogus` is ignored by the server with no
reply and no state change. -/
theorem claim_C5_witness :
    tokOK "bogus".toList = true ∧
    TWSEmulator.process_message (TWSEmulator.start_server (TWSEmulator.init [10]))
        (frameOf (.unknown "bogus".toList))
      = (TWSEmulator.start_server (TWSEmulator.init [10]),
          [.unknown "bogus".toList], [], .keepGoing) :=
  ⟨by decide,
   (claim_C5_unknown_type_ignored "bogus".toList []
      (TWSEmulator.start_server (TWSEmulator.init [10])) true true
      (by decide) (by decide)).2.2.1⟩

/-- C6 counterexample: with a three-bar source and the running flag
cleared after the first iteration, `TWSEmulator.stream_bars` still writes
the `endOfData` message (the final `send_message` is outside the loop and
unconditional), and a client reading that stream does observe
`endOfData`. -/
theorem claim_C6_endOfData_written_counterexample :
    TWSEmulator.stream_bars (fun i => decide (i < 1))
        [⟨0, 1, 2, 3, 4⟩, ⟨5, 6, 7, 8, 9⟩, ⟨10, 11, 12, 13, 14⟩]
      = [barMsg ⟨0, 1, 2, 3, 4⟩, Msg.endOfData]
    ∧ Msg.endOfData ∈ TWSEmulator.stream_bars (fun i => decide (i < 1))
        [⟨0, 1, 2, 3, 4⟩, ⟨5, 6, 7, 8, 9⟩, ⟨10, 11, 12, 13, 14⟩]
    ∧ clientTrace true true
        [byteStreamOf (TWSEmulator.stream_bars (fun i => decide (i < 1))
          [⟨0, 1, 2, 3, 4⟩, ⟨5, 6, 7, 8, 9⟩, ⟨10, 11, 12, 13, 14⟩])]
      = [CEvent.barCb 0 1 2 3 4, CEvent.endSeen] :=
  ⟨by decide, by decide, by decide⟩

/-- C6 (amended): if the running flag is cleared before iteration `k`, the
streaming task writes exactly the first `k` bar updates — it stops within
one iteration of the flag clearing — but it still writes the single
end-of-stream message, which the client observes if the write reaches it
before the connection is torn down. -/
theorem claim_C6_stop_midstream_amended (bars : List Bar) (k : Nat) :
    TWSEmulator.stream_bars (fun i => decide (i < k)) bars
      = (bars.take k).map barMsg ++ [Msg.endOfData] := by
  rw [TWSEmulator.stream_bars, streamLoop_take k bars 0]
  simp

/-- C7: `TWSClient.disconnect` is idempotent: from a connected client, the
first call produces the one close effect (best-effort disconnect notice,
socket closed, `connected` and `running` cleared, `stop_event` set) and
the second call is an observable no-op — the state is unchanged and only
"Already disconnected" is reported, with no error. -/
theorem claim_C7_disconnect_idempotent (s : CState) (ok1 ok2 : Bool)
    (hl : s.lockHeld = false) (hc : s.connected = true) :
    TWSClient.disconnect s ok1
        = some (⟨false, false, true, false, s.barCbSet, s.ordCbSet, false⟩,
            (if ok1 then [DiscEffect.sentNotice] else [DiscEffect.noticeFailed])
              ++ [DiscEffect.closedSocket])
      ∧ TWSClient.disconnect
            ⟨false, false, true, false, s.barCbSet, s.ordCbSet, false⟩ ok2
          = some (⟨false, false, true, false, s.barCbSet, s.ordCbSet, false⟩,
              [DiscEffect.reportedAlreadyDisconnected]) := by
  obtain ⟨c, r, se, so, bc, oc, lh⟩ := s
  have hl2 : lh = false := hl
  have hc2 : c = true := hc
  subst hl2
  subst hc2
  exact ⟨rfl, rfl⟩

/-- C7 witness: a concrete connected client; first disconnect closes, the
second only reports. -/
theorem claim_C7_witness :
    TWSClient.disconnect ⟨true, true, false, true, true, true, false⟩ true
        = some (⟨false, false, true, false, true, true, false⟩,
            [DiscEffect.sentNotice, DiscEffect.closedSocket])
      ∧ TWSClient.disconnect ⟨false, false, true, false, true, true, false⟩ false
          = some (⟨false, false, true, false, true, true, false⟩,
              [DiscEffect.reportedAlreadyDisconnected]) := by
  have h := claim_C7_disconnect_idempotent
    ⟨true, true, false, true, true, true, false⟩ true false rfl rfl
  exact ⟨h.1, h.2⟩

/-- C8: the claim is refuted by the code: a failing socket write inside
`TWSClient.send` reaches `self.disconnect()` while `self.lock` — a
non-reentrant `threading.Lock` — is still held by the `with self.lock`
block of `send`, so `disconnect`'s own `with self.lock` blocks forever:
the call deadlocks instead of completing with the disconnect side
effect. -/
theorem claim_C8_send_failure_deadlocks :
    TWSClient.send ⟨true, true, false, true, false, false, false⟩
        (Msg.reqRealTimeBars 5) false = SendRes.deadlocked := rfl

/-- C9: `TWSClient.place_order` on a connected client with a successful
write sends exactly one order-request frame and returns the locally
generated identifier (`id(order)`) at once — its result consumes no
server input, so it does not wait for the reply — and a later
`orderStatus` reply is delivered through the receive task's dispatch to
the registered order-status callback.  (The synthetic immediate 'Filled'
event fabricated before any server reply is also visible in the event
component.) -/
theorem claim_C9_place_order_immediate (s : CState) (ord : OrderReq)
    (localId : Int) (hl : s.lockHeld = false) (hc : s.connected = true) :
    TWSClient.place_order s ord localId true
        = some (s, [frameOf (Msg.placeOrder (some ord))],
            (if s.ordCbSet then [CEvent.ordCb localId "Filled".toList 0] else []),
            localId)
      ∧ (∀ (oid p : Int) (b : Bool),
          dispatchOf b true (Msg.orderStatus oid "Filled".toList p)
            = some (CEvent.ordCb oid "Filled".toList p)) := by
  constructor
  · obtain ⟨c, r, se, so, bc, oc, lh⟩ := s
    have hl2 : lh = false := hl
    have hc2 : c = true := hc
    subst hl2
    subst hc2
    rfl
  · intro oid p b
    simp [dispatchOf]

/-- C9 witness: a concrete connected client with an order-status callback
registered. -/
theorem claim_C9_witness :
    TWSClient.place_order ⟨true, true, false, true, false, true, false⟩
        ⟨.buy, 10⟩ 99 true
      = some (⟨true, true, false, true, false, true, false⟩,
          [frameOf (Msg.placeOrder (some ⟨.buy, 10⟩))],
          [CEvent.ordCb 99 "Filled".toList 0], 99) :=
  (claim_C9_place_order_immediate ⟨true, true, false, true, false, true, false⟩
    ⟨.buy, 10⟩ 99 rfl rfl).1

/-- C10: `TWSClient.send` while not connected is a silent no-op: the lock
is taken and released, nothing is written, no error is raised, and the
state is returned unchanged in every field. -/
theorem claim_C10_send_not_connected_noop (s : CState) (m : Msg) (w : Bool)
    (hc : s.connected = false) (hl : s.lockHeld = false) :
    TWSClient.send s m w = SendRes.done s [] := by
  obtain ⟨c, r, se, so, bc, oc, lh⟩ := s
  have hl2 : lh = false := hl
  have hc2 : c = false := hc
  subst hl2
  subst hc2
  rfl

/-- C10 witness: a concrete disconnected client. -/
theorem claim_C10_witness :
    TWSClient.send ⟨false, false, true, false, false, false, false⟩
        Msg.endOfData true
      = SendRes.done ⟨false, false, true, false, false, false, false⟩ [] :=
  claim_C10_send_not_connected_noop _ _ _ rfl rfl
